import Mathlib

/-!
Verification of the NSXv3 agent reconciliation and synchronization engine
(`networking_nsxv3/plugins/ml2/drivers/nsxv3/agent/nsxv3_agent.py`).

The Python agent keeps a target store (NSX-T) consistent with a source store
(Neutron).  We shallowly embed the pure decision logic of the agent:

* revision maps (`dict` from object id to revision string) become association
  lists `List (String × String)` with first-match lookup; Python `dict`
  assignment `d[k] = v` becomes prepending, so the most recent assignment wins;
* Python sets become `Finset String`;
* the handlers that only call out to the NSX facade become functions that
  return the list of primitive effects they perform (lock acquisitions and
  facade calls), so frame claims are statements about those traces;
* the surrounding collaborators that are not part of this repository snapshot
  (the `sync.Runner` priority constants, the facada `Timestamp`, the facada
  `get_security_group_rule_spec`) are modelled from the specification and
  marked as such in their doc comments.
-/

namespace Nsxv3Agent

/-- First-match lookup in an association list; embeds Python `dict.get` for
dictionaries (whose keys are unique). -/
def lookupStr (m : List (String × String)) (k : String) : Option String :=
  (m.find? (fun kv => kv.1 == k)).map Prod.snd

/-- Key set of a revision map; embeds Python `dict.keys()` viewed as a set. -/
def keysOf (m : List (String × String)) : Finset String :=
  (m.map Prod.fst).toFinset

/-- Embedding of `_sync_get_content` (nsxv3_agent.py lines 248-259): `outdated`
collects the source keys whose revision is absent from or different in the
target map, `orphaned` is the set difference of the key sets. -/
def _sync_get_content (revs_os revs_nsx : List (String × String)) :
    Finset String × Finset String :=
  let outdated :=
    ((revs_os.filter (fun kv => lookupStr revs_nsx kv.1 != some kv.2)).map
      Prod.fst).toFinset
  let orphaned := keysOf revs_nsx \ keysOf revs_os
  (outdated, orphaned)

theorem lookupStr_eq_some_iff {m : List (String × String)} {k v : String}
    (hnd : (m.map Prod.fst).Nodup) : lookupStr m k = some v ↔ (k, v) ∈ m := by
  induction m with
  | nil => simp [lookupStr]
  | cons kv rest ih =>
    obtain ⟨a, b⟩ := kv
    simp only [List.map_cons, List.nodup_cons, List.mem_map] at hnd
    by_cases hk : a = k
    · subst hk
      rw [lookupStr, List.find?_cons_of_pos _ (by simp)]
      constructor
      · intro h
        have hb : b = v := by simpa using h
        subst hb
        exact List.mem_cons_self _ _
      · intro h
        rcases List.mem_cons.mp h with h | h
        · have hv : v = b := congrArg Prod.snd h
          subst hv
          simp
        · exact absurd ⟨(a, v), h, rfl⟩ hnd.1
    · rw [lookupStr, List.find?_cons_of_neg _ (by simpa using hk)]
      rw [← lookupStr, ih hnd.2]
      constructor
      · exact fun h => List.mem_cons_of_mem _ h
      · intro h
        rcases List.mem_cons.mp h with h | h
        · exact absurd (congrArg Prod.fst h).symm hk
        · exact h

theorem lookupStr_eq_none_iff {m : List (String × String)} {k : String} :
    lookupStr m k = none ↔ ∀ kv ∈ m, kv.1 ≠ k := by
  simp [lookupStr, List.find?_eq_none]

theorem lookupStr_isSome_of_mem {m : List (String × String)} {k v : String}
    (h : (k, v) ∈ m) : (lookupStr m k).isSome := by
  cases hl : lookupStr m k with
  | none => exact absurd rfl (lookupStr_eq_none_iff.mp hl (k, v) h)
  | some w => rfl

theorem mem_keysOf {m : List (String × String)} {k : String} :
    k ∈ keysOf m ↔ ∃ v, (k, v) ∈ m := by
  constructor
  · intro h
    rcases List.mem_map.mp (List.mem_toFinset.mp h) with ⟨kv, hkv, hfst⟩
    exact ⟨kv.2, by rwa [show (k, kv.2) = kv from Prod.ext hfst.symm rfl]⟩
  · rintro ⟨v, hv⟩
    exact List.mem_toFinset.mpr (List.mem_map.mpr ⟨(k, v), hv, rfl⟩)

/-- Claim C1: `_sync_get_content` returns `outdated` = the source keys whose
revision is missing from the target map or differs from it, and `orphaned` =
the target keys absent from the source map; the two sets are always
disjoint. -/
theorem sync_get_content_diff (revs_os revs_nsx : List (String × String))
    (hnd : (revs_os.map Prod.fst).Nodup) :
    (∀ k, k ∈ (_sync_get_content revs_os revs_nsx).1 ↔
      ∃ r, lookupStr revs_os k = some r ∧ lookupStr revs_nsx k ≠ some r) ∧
    (∀ k, k ∈ (_sync_get_content revs_os revs_nsx).2 ↔
      k ∈ keysOf revs_nsx ∧ lookupStr revs_os k = none) ∧
    Disjoint (_sync_get_content revs_os revs_nsx).1
      (_sync_get_content revs_os revs_nsx).2 := by
  have houtd : ∀ k, k ∈ (_sync_get_content revs_os revs_nsx).1 ↔
      ∃ r, lookupStr revs_os k = some r ∧ lookupStr revs_nsx k ≠ some r := by
    intro k
    simp only [_sync_get_content, List.mem_toFinset, List.mem_map,
      List.mem_filter]
    constructor
    · rintro ⟨kv, ⟨hmem, hne⟩, hfst⟩
      subst hfst
      refine ⟨kv.2, (lookupStr_eq_some_iff hnd).mpr (by simpa using hmem), ?_⟩
      simpa using hne
    · rintro ⟨r, hsome, hne⟩
      exact ⟨(k, r), ⟨(lookupStr_eq_some_iff hnd).mp hsome, by simpa using hne⟩,
        rfl⟩
  have horph : ∀ k, k ∈ (_sync_get_content revs_os revs_nsx).2 ↔
      k ∈ keysOf revs_nsx ∧ lookupStr revs_os k = none := by
    intro k
    simp only [_sync_get_content, Finset.mem_sdiff]
    constructor
    · rintro ⟨hin, hout⟩
      refine ⟨hin, lookupStr_eq_none_iff.mpr ?_⟩
      rintro kv hkv rfl
      exact hout (mem_keysOf.mpr ⟨kv.2, by rwa [show (kv.1, kv.2) = kv from rfl]⟩)
    · rintro ⟨hin, hnone⟩
      refine ⟨hin, fun hmem => ?_⟩
      rcases mem_keysOf.mp hmem with ⟨v, hv⟩
      exact absurd rfl (lookupStr_eq_none_iff.mp hnone (k, v) hv)
  refine ⟨houtd, horph, Finset.disjoint_left.mpr ?_⟩
  intro k hk hk2
  rcases (houtd k).mp hk with ⟨r, hsome, _⟩
  rw [((horph k).mp hk2).2] at hsome
  exact Option.noConfusion hsome

/-- Witness for C1 at the specification scenario: source `A ↦ 1, B ↦ 2`,
target `A ↦ 1, C ↦ 9` produce `outdated = ⟨B⟩` and `orphaned = ⟨C⟩`, and the
two sets are disjoint by the theorem. -/
theorem sync_get_content_diff_witness :
    _sync_get_content [("A", "1"), ("B", "2")] [("A", "1"), ("C", "9")] =
      ({"B"}, {"C"}) ∧
    Disjoint (_sync_get_content [("A", "1"), ("B", "2")]
        [("A", "1"), ("C", "9")]).1
      (_sync_get_content [("A", "1"), ("B", "2")] [("A", "1"), ("C", "9")]).2 :=
  ⟨by decide,
    (sync_get_content_diff [("A", "1"), ("B", "2")] [("A", "1"), ("C", "9")]
      (by decide)).2.2⟩

/-- Modelled from the spec: the priority constants of the task runner (the
`networking_nsxv3.common.synchronization` module is not part of this snapshot).
The spec lists them as "named constants with implicit ordering"; the agent uses
`HIGHEST`, `HIGHER`, `HIGH`, `MEDIUM`, `LOW`, `LOWER`. -/
inductive Priority
  | HIGHEST
  | HIGHER
  | HIGH
  | MEDIUM
  | LOW
  | LOWER
  | LOWEST
deriving DecidableEq

/-- Numeric rank of a priority: a larger rank means a higher priority. -/
def Priority.rank : Priority → Nat
  | .HIGHEST => 6
  | .HIGHER => 5
  | .HIGH => 4
  | .MEDIUM => 3
  | .LOW => 2
  | .LOWER => 1
  | .LOWEST => 0

/-- The handlers the synchronizer passes to `Runner.run`, named after the agent
methods. -/
inductive Handler
  | security_group_updated
  | security_group_member_updated
  | security_group_rule_updated
  | sync_security_group_orphaned
  | sync_qos
  | sync_qos_orphaned
  | sync_port
  | sync_port_orphaned
  | sync_security_group
deriving DecidableEq

/-- One call `runner.run(priority, items, handler)`. -/
structure Submission where
  priority : Priority
  items : Finset String
  handler : Handler
deriving DecidableEq

/-- The three object kinds the inventory synchronizer reconciles. -/
inductive ObjKind
  | securityGroups
  | qosPolicies
  | ports
deriving DecidableEq

/-- Handlers that re-apply an outdated object of the given kind. -/
def isOutdatedHandler : ObjKind → Handler → Bool
  | .securityGroups, .security_group_updated => true
  | .securityGroups, .security_group_member_updated => true
  | .securityGroups, .security_group_rule_updated => true
  | .qosPolicies, .sync_qos => true
  | .ports, .sync_port => true
  | _, _ => false

/-- Handlers that remove an orphaned object of the given kind. -/
def isOrphanedHandler : ObjKind → Handler → Bool
  | .securityGroups, .sync_security_group_orphaned => true
  | .qosPolicies, .sync_qos_orphaned => true
  | .ports, .sync_port_orphaned => true
  | _, _ => false

/-- Embedding of `_sync_inventory_shallow` (nsxv3_agent.py lines 175-217),
parameterized by the source (`*OS`) and target (`*NSX`) revision maps the
queries would return.  It emits, in order, exactly the seven `runner.run`
submissions of the Python method; note that `orphaned_qos` is computed but
never submitted, and that both port submissions use `Priority.LOW`. -/
def _sync_inventory_shallow (sgOS sgNSX qosOS qosNSX portOS portNSX :
    List (String × String)) : List Submission :=
  let sg := _sync_get_content sgOS sgNSX
  let qos := _sync_get_content qosOS qosNSX
  let lps := _sync_get_content portOS portNSX
  [⟨.HIGHER, sg.1, .security_group_updated⟩,
   ⟨.HIGH, sg.1, .security_group_member_updated⟩,
   ⟨.MEDIUM, sg.1, .security_group_rule_updated⟩,
   ⟨.LOW, sg.2, .sync_security_group_orphaned⟩,
   ⟨.LOWER, qos.1, .sync_qos⟩,
   ⟨.LOW, lps.1, .sync_port⟩,
   ⟨.LOW, lps.2, .sync_port_orphaned⟩]

/-- Embedding of `_sync_inventory_full` (nsxv3_agent.py lines 161-173),
parameterized by the source revision maps; it submits the key set of each
source query with the unconditional re-apply handlers, at priorities
`HIGHER`, `HIGH`, `MEDIUM`. -/
def _sync_inventory_full (sgOS qosOS portOS : List (String × String)) :
    List Submission :=
  [⟨.HIGHER, keysOf sgOS, .sync_security_group⟩,
   ⟨.HIGH, keysOf qosOS, .sync_qos⟩,
   ⟨.MEDIUM, keysOf portOS, .sync_port⟩]

/-- Claim C3 as stated: in a shallow pass, for every object kind, an orphaned
submission exists and sits at a strictly lower priority than every outdated
submission of the same kind. -/
def orphanedStrictlyLower (subs : List Submission) : Bool :=
  [ObjKind.securityGroups, ObjKind.qosPolicies, ObjKind.ports].all fun kind =>
    (subs.any fun so => isOrphanedHandler kind so.handler) &&
    (subs.all fun so => subs.all fun su =>
      !(isOrphanedHandler kind so.handler && isOutdatedHandler kind su.handler)
        || decide (so.priority.rank < su.priority.rank))

/-- Counterexample to claim C3: already on empty revision maps the shallow
pass violates the claim — the QoS orphaned set is never submitted at all, and
the port orphaned submission has the same priority `LOW` as the port outdated
submission. -/
theorem shallow_orphaned_priority_counterexample :
    orphanedStrictlyLower (_sync_inventory_shallow [] [] [] [] [] []) =
      false := by
  decide

/-- Claim C3 amended: in every shallow pass, the security-group orphaned
submission is at a strictly lower priority than every security-group outdated
submission; the QoS orphaned set is never submitted; and the port orphaned and
port outdated submissions are both at priority `LOW`. -/
def shallowOrphanedAmended (subs : List Submission) : Bool :=
  (subs.all fun so => subs.all fun su =>
    !(isOrphanedHandler ObjKind.securityGroups so.handler &&
        isOutdatedHandler ObjKind.securityGroups su.handler)
      || decide (so.priority.rank < su.priority.rank)) &&
  (subs.all fun s => !(s.handler == Handler.sync_qos_orphaned)) &&
  (subs.all fun so => subs.all fun su =>
    !(isOrphanedHandler ObjKind.ports so.handler &&
        isOutdatedHandler ObjKind.ports su.handler)
      || (so.priority == Priority.LOW && su.priority == Priority.LOW))

/-- Claim C3, amended: for every input revision maps, the shallow pass submits
security-group orphans strictly below all security-group outdated submissions,
never submits the QoS orphaned set, and submits port orphans at the same `LOW`
priority as port outdated keys. -/
theorem shallow_orphaned_priority_amended
    (sgOS sgNSX qosOS qosNSX portOS portNSX : List (String × String)) :
    shallowOrphanedAmended
      (_sync_inventory_shallow sgOS sgNSX qosOS qosNSX portOS portNSX) =
      true := rfl

/-- Claim C7: the full pass submits exactly the three source-derived key sets
with the unconditional re-apply handlers `sync_security_group`, `sync_qos`,
`sync_port`, at strictly descending priorities, and no orphan or deletion
handler — target-only keys are untouched (the target maps are not even
consulted). -/
theorem full_pass_submissions (sgOS qosOS portOS : List (String × String)) :
    ((_sync_inventory_full sgOS qosOS portOS).map Submission.handler =
      [Handler.sync_security_group, Handler.sync_qos, Handler.sync_port]) ∧
    ((_sync_inventory_full sgOS qosOS portOS).map Submission.items =
      [keysOf sgOS, keysOf qosOS, keysOf portOS]) ∧
    ((_sync_inventory_full sgOS qosOS portOS).map Submission.priority =
      [Priority.HIGHER, Priority.HIGH, Priority.MEDIUM]) ∧
    List.Chain' (fun a b => b.priority.rank < a.priority.rank)
      (_sync_inventory_full sgOS qosOS portOS) ∧
    (∀ s ∈ _sync_inventory_full sgOS qosOS portOS, ∀ kind,
      isOrphanedHandler kind s.handler = false) := by
  refine ⟨rfl, rfl, rfl, ?_, ?_⟩
  · simp only [_sync_inventory_full, List.chain'_cons, List.chain'_singleton,
      and_true]
    exact ⟨by decide, by decide⟩
  · intro s hs kind
    simp only [_sync_inventory_full, List.mem_cons, List.not_mem_nil,
      or_false] at hs
    rcases hs with rfl | rfl | rfl <;> cases kind <;> rfl

/-- Embedding of `sync_inventory` (nsxv3_agent.py lines 219-240), run while
holding the global synchronization lock.  `passiveCount` is `runner.passive()`;
`expired` models `timestamp.has_expired()` of the facada `Timestamp` (not in
this snapshot; per the spec it reads the marker from the target store).  The
Boolean in the result records whether `timestamp.update()` wrote the current
time to the marker. -/
def sync_inventory (passiveCount : Nat) (expired : Bool)
    (sgOS sgNSX qosOS qosNSX portOS portNSX : List (String × String)) :
    List Submission × Bool :=
  if 0 < passiveCount then ([], false)
  else if expired then (_sync_inventory_full sgOS qosOS portOS, true)
  else
    (_sync_inventory_shallow sgOS sgNSX qosOS qosNSX portOS portNSX, false)

/-- Claim C4: with a nonzero passive backlog, `sync_inventory` submits nothing
and does not write the timestamp marker; with an empty backlog it submits the
full pass and then writes the marker when the timestamp has expired, and
submits the shallow pass without writing the marker otherwise. -/
theorem sync_inventory_gate (passiveCount : Nat) (expired : Bool)
    (sgOS sgNSX qosOS qosNSX portOS portNSX : List (String × String)) :
    (0 < passiveCount →
      sync_inventory passiveCount expired sgOS sgNSX qosOS qosNSX portOS
        portNSX = ([], false)) ∧
    (passiveCount = 0 → expired = true →
      sync_inventory passiveCount expired sgOS sgNSX qosOS qosNSX portOS
        portNSX = (_sync_inventory_full sgOS qosOS portOS, true)) ∧
    (passiveCount = 0 → expired = false →
      sync_inventory passiveCount expired sgOS sgNSX qosOS qosNSX portOS
        portNSX =
        (_sync_inventory_shallow sgOS sgNSX qosOS qosNSX portOS portNSX,
          false)) := by
  refine ⟨fun h => ?_, fun h he => ?_, fun h he => ?_⟩
  · simp [sync_inventory, h]
  · subst he
    simp [sync_inventory, h]
  · subst he
    simp [sync_inventory, h]

/-- Witness for C4: with one queued unit nothing is submitted and the marker is
not written; with an empty backlog and an expired timestamp the full pass is
submitted and the marker written. -/
theorem sync_inventory_gate_witness :
    sync_inventory 1 true [] [] [] [] [] [] = ([], false) ∧
    sync_inventory 0 true [] [] [] [] [] [] =
      (_sync_inventory_full [] [] [], true) :=
  ⟨(sync_inventory_gate 1 true [] [] [] [] [] []).1 (by decide),
    (sync_inventory_gate 0 true [] [] [] [] [] []).2.1 rfl rfl⟩

/-- One record returned by a source-store query: `(key, revision, createdAt)`,
with the revision and the creation timestamp modelled as naturals. -/
abbrev QueryRecord := String × Nat × Nat

/-- Embedding of the body of the `for` loop of `get_revisions` (nsxv3_agent.py
lines 366-367): `rev[port] = str(revision)` for each record of a page, in
order.  Prepending with first-match lookup makes the latest assignment win,
like a Python dict. -/
def insertRecords (rev : List (String × String)) (page : List QueryRecord) :
    List (String × String) :=
  page.foldl (fun m r => (r.1, toString r.2.1) :: m) rev

/-- Embedding of the `while True` loop of `get_revisions` (nsxv3_agent.py
lines 360-371), with explicit fuel: `none` means the loop did not return
within `fuel` iterations (`pr_tuples.pop()` on an empty page, only reachable
with `limit = 0`, is also `none`).  Each iteration queries one page, records
every returned revision, stops if the page is short, and otherwise continues
from the `createdAt` of the last record. -/
def get_revisionsAux (query : Nat → Nat → List QueryRecord) (limit : Nat) :
    Nat → Nat → List (String × String) → Option (List (String × String))
  | 0, _, _ => none
  | fuel + 1, created_after, rev =>
    let pr_tuples := query limit created_after
    let revNew := insertRecords rev pr_tuples
    if pr_tuples.length < limit then some revNew
    else
      match pr_tuples.getLast? with
      | some last => get_revisionsAux query limit fuel last.2.2 revNew
      | none => none

/-- Embedding of `get_revisions` (nsxv3_agent.py lines 360-371): start from the
epoch watermark `0` with an empty map. -/
def get_revisions (query : Nat → Nat → List QueryRecord) (limit fuel : Nat) :
    Option (List (String × String)) :=
  get_revisionsAux query limit fuel 0 []

/-- The hypothesis of claim C6: following the watermarks from `t`, some page
within `n` further steps has fewer than `limit` records. -/
def haltsWithinB (query : Nat → Nat → List QueryRecord) (limit : Nat) :
    Nat → Nat → Bool
  | 0, t => decide ((query limit t).length < limit)
  | n + 1, t =>
    decide ((query limit t).length < limit) ||
      (match (query limit t).getLast? with
       | some last => haltsWithinB query limit n last.2.2
       | none => false)

/-- The concatenation of the pages the loop visits within the given fuel,
following the same watermark chain as `get_revisionsAux`. -/
def visitedRecords (query : Nat → Nat → List QueryRecord) (limit : Nat) :
    Nat → Nat → List QueryRecord
  | 0, _ => []
  | n + 1, t =>
    let page := query limit t
    if page.length < limit then page
    else
      match page.getLast? with
      | some last => page ++ visitedRecords query limit n last.2.2
      | none => page

/-- Stated from the claim for comparison: the revision most recently returned
for a key, i.e. the stringified revision of the last record carrying that key,
if any. -/
def mostRecentRevision : List QueryRecord → String → Option String
  | [], _ => none
  | r :: rest, k =>
    match mostRecentRevision rest k with
    | some v => some v
    | none => if r.1 == k then some (toString r.2.1) else none

theorem lookupStr_cons (a : String × String) (m : List (String × String))
    (k : String) :
    lookupStr (a :: m) k = if a.1 == k then some a.2 else lookupStr m k := by
  cases h : a.1 == k with
  | true => simp [lookupStr, List.find?, h]
  | false => simp [lookupStr, List.find?, h]

theorem lookupStr_insertRecords (page : List QueryRecord) :
    ∀ (m : List (String × String)) (k : String),
    lookupStr (insertRecords m page) k =
      match mostRecentRevision page k with
      | some v => some v
      | none => lookupStr m k := by
  induction page with
  | nil => intro m k; rfl
  | cons a l ih =>
    intro m k
    rw [show insertRecords m (a :: l) =
      insertRecords ((a.1, toString a.2.1) :: m) l from rfl, ih]
    cases hmr : mostRecentRevision l k with
    | some v => simp [mostRecentRevision, hmr]
    | none =>
      simp only [mostRecentRevision, hmr, lookupStr_cons]
      by_cases hk : (a.1 == k) = true
      · rw [if_pos hk, if_pos hk]
      · rw [if_neg hk, if_neg hk]

theorem insertRecords_append (m : List (String × String))
    (p q : List QueryRecord) :
    insertRecords m (p ++ q) = insertRecords (insertRecords m p) q := by
  simp [insertRecords, List.foldl_append]

theorem get_revisionsAux_succ (query : Nat → Nat → List QueryRecord)
    (limit fuel t : Nat) (m : List (String × String)) :
    get_revisionsAux query limit (fuel + 1) t m =
      if (query limit t).length < limit then
        some (insertRecords m (query limit t))
      else
        match (query limit t).getLast? with
        | some last =>
          get_revisionsAux query limit fuel last.2.2
            (insertRecords m (query limit t))
        | none => none := rfl

theorem visitedRecords_succ (query : Nat → Nat → List QueryRecord)
    (limit n t : Nat) :
    visitedRecords query limit (n + 1) t =
      if (query limit t).length < limit then query limit t
      else
        match (query limit t).getLast? with
        | some last => query limit t ++ visitedRecords query limit n last.2.2
        | none => query limit t := rfl

theorem get_revisionsAux_eq (query : Nat → Nat → List QueryRecord)
    (limit : Nat) :
    ∀ (n t : Nat) (m : List (String × String)),
    haltsWithinB query limit n t = true →
    get_revisionsAux query limit (n + 1) t m =
      some (insertRecords m (visitedRecords query limit (n + 1) t)) := by
  intro n
  induction n with
  | zero =>
    intro t m h
    have hlen : (query limit t).length < limit := by
      simpa [haltsWithinB] using h
    simp [get_revisionsAux, visitedRecords, hlen]
  | succ n ih =>
    intro t m h
    by_cases hlen : (query limit t).length < limit
    · simp [get_revisionsAux, visitedRecords, hlen]
    · have h2 : ∃ last, (query limit t).getLast? = some last ∧
          haltsWithinB query limit n last.2.2 = true := by
        rw [haltsWithinB] at h
        cases hlast : (query limit t).getLast? with
        | none =>
          rw [hlast] at h
          simp [hlen] at h
        | some last =>
          rw [hlast] at h
          refine ⟨last, rfl, ?_⟩
          simpa [hlen] using h
      obtain ⟨last, hlast, htail⟩ := h2
      rw [get_revisionsAux_succ, visitedRecords_succ]
      simp only [if_neg hlen, hlast]
      rw [ih last.2.2 (insertRecords m (query limit t)) htail,
        insertRecords_append]

/-- Claim C6: whenever some page along the watermark chain eventually has
fewer than `limit` records, `get_revisions` terminates (here: returns `some`
within fuel `n + 1`, one call per visited page), and the returned map assigns
every returned key its most recently returned revision. -/
theorem get_revisions_terminates (query : Nat → Nat → List QueryRecord)
    (limit n : Nat) (h : haltsWithinB query limit n 0 = true) :
    ∃ revMap, get_revisions query limit (n + 1) = some revMap ∧
      ∀ k, lookupStr revMap k =
        mostRecentRevision (visitedRecords query limit (n + 1) 0) k := by
  refine ⟨insertRecords [] (visitedRecords query limit (n + 1) 0),
    get_revisionsAux_eq query limit n 0 [] h, ?_⟩
  intro k
  rw [lookupStr_insertRecords]
  cases mostRecentRevision (visitedRecords query limit (n + 1) 0) k <;> rfl

/-- A concrete paged source query for the C6 witness: the first page is full
(two records, limit 2) and the page after watermark 20 is short. -/
def pagedQueryExample : Nat → Nat → List QueryRecord := fun _ t =>
  if t = 0 then [("A", 1, 10), ("B", 2, 20)]
  else if t = 20 then [("C", 3, 30)] else []

/-- Witness for C6 on `pagedQueryExample` with limit 2: the halting hypothesis
holds within one extra page, so `get_revisions` returns a map as described. -/
theorem get_revisions_terminates_witness :
    haltsWithinB pagedQueryExample 2 1 0 = true ∧
    ∃ revMap, get_revisions pagedQueryExample 2 2 = some revMap ∧
      ∀ k, lookupStr revMap k =
        mostRecentRevision (visitedRecords pagedQueryExample 2 2 0) k :=
  ⟨by decide, get_revisions_terminates pagedQueryExample 2 1 (by decide)⟩

/-- A Neutron security-group rule as returned by
`get_rules_for_security_groups_id`, restricted to the attributes the agent
copies (`attrs`, nsxv3_agent.py lines 106-108).  The field `remote_ip_pfx`
embeds the source attribute named `remote_ip_` + `prefix`; all opaque
attribute values are strings. -/
structure NeutronRule where
  id : String
  port_range_min : String
  port_range_max : String
  protocol : String
  ethertype : String
  direction : String
  remote_group_id : String
  remote_ip_pfx : String
  security_group_id : String
deriving DecidableEq

/-- The `fwr` dict built for one rule (nsxv3_agent.py lines 115-122): the
copied attributes plus `local_group_id`, `apply_to` and the possibly
substituted `remote_group_id`. -/
structure FwrDict where
  id : String
  port_range_min : String
  port_range_max : String
  protocol : String
  ethertype : String
  direction : String
  remote_group_id : String
  remote_ip_pfx : String
  security_group_id : String
  local_group_id : String
  apply_to : String
deriving DecidableEq

/-- Embedding of nsxv3_agent.py lines 115-122: copy the rule attributes, set
`local_group_id` to the owning IPSet id and `apply_to` to the NSGroup id, and
substitute `remote_group_id` by its resolved IPSet reference when
`remote_group_id in revs_ips`. -/
def buildFwr (ipset_id nsg_id : String) (revs_ips : List (String × String))
    (rule : NeutronRule) : FwrDict :=
  { id := rule.id
    port_range_min := rule.port_range_min
    port_range_max := rule.port_range_max
    protocol := rule.protocol
    ethertype := rule.ethertype
    direction := rule.direction
    remote_group_id :=
      match lookupStr revs_ips rule.remote_group_id with
      | some ref => ref
      | none => rule.remote_group_id
    remote_ip_pfx := rule.remote_ip_pfx
    security_group_id := rule.security_group_id
    local_group_id := ipset_id
    apply_to := nsg_id }

/-- Modelled from the spec: `get_security_group_rule_spec` lives in
`nsxv3_facada`, which is not part of this snapshot; per the spec it projects
the rule dict into a target-shape spec carrying the same id and references, so
it is modelled as the identity projection. -/
def get_security_group_rule_spec (fwr : FwrDict) : Option FwrDict :=
  some fwr

/-- Embedding of Python `del revs_fwr[name]` on a dict with unique keys. -/
def eraseKey (m : List (String × String)) (k : String) :
    List (String × String) :=
  m.filter (fun kv => kv.1 != k)

/-- Embedding of the `for rule in neutron_rules` loop of
`security_group_rule_updated` (nsxv3_agent.py lines 110-133).  `metaDisabled`
models the per-rule `FirewallRule.disabled` metadata flag from the facada
`get_revisions`; `revs_fwr` maps existing rule ids to their target-store rule
references.  Returns the accumulated `add_rules` and the remaining
`revs_fwr`. -/
def ruleLoop (metaDisabled : String → Bool) (ipset_id nsg_id : String)
    (revs_ips : List (String × String)) :
    List NeutronRule → List (String × String) → List FwrDict →
    List FwrDict × List (String × String)
  | [], revs_fwr, add_rules => (add_rules, revs_fwr)
  | rule :: rest, revs_fwr, add_rules =>
    if (lookupStr revs_fwr rule.id).isSome then
      if metaDisabled rule.id = false then
        ruleLoop metaDisabled ipset_id nsg_id revs_ips rest
          (eraseKey revs_fwr rule.id) add_rules
      else
        match get_security_group_rule_spec
            (buildFwr ipset_id nsg_id revs_ips rule) with
        | some s =>
          ruleLoop metaDisabled ipset_id nsg_id revs_ips rest revs_fwr
            (add_rules ++ [s])
        | none =>
          ruleLoop metaDisabled ipset_id nsg_id revs_ips rest revs_fwr
            add_rules
    else
      match get_security_group_rule_spec
          (buildFwr ipset_id nsg_id revs_ips rule) with
      | some s =>
        ruleLoop metaDisabled ipset_id nsg_id revs_ips rest revs_fwr
          (add_rules ++ [s])
      | none =>
        ruleLoop metaDisabled ipset_id nsg_id revs_ips rest revs_fwr
          add_rules

/-- Embedding of the reconciliation core of `security_group_rule_updated`
(nsxv3_agent.py lines 110-141): run the loop from an empty `add_rules`, then
`del_rules = revs_fwr.values()`. -/
def security_group_rule_updated (metaDisabled : String → Bool)
    (ipset_id nsg_id : String) (revs_ips revs_fwr : List (String × String))
    (neutron_rules : List NeutronRule) : List FwrDict × List String :=
  let res :=
    ruleLoop metaDisabled ipset_id nsg_id revs_ips neutron_rules revs_fwr []
  (res.1, res.2.map Prod.snd)

theorem buildFwr_id (ipset_id nsg_id : String)
    (revs_ips : List (String × String)) (rule : NeutronRule) :
    (buildFwr ipset_id nsg_id revs_ips rule).id = rule.id := rfl

theorem mem_eraseKey {m : List (String × String)} {k : String}
    {nv : String × String} : nv ∈ eraseKey m k ↔ nv ∈ m ∧ ¬nv.1 = k := by
  simp [eraseKey, List.mem_filter, bne_iff_ne]

section RuleLoopLemmas

variable (md : String → Bool) (ipset_id nsg_id : String)
variable (revs_ips : List (String × String))

theorem ruleLoop_revs_subset :
    ∀ (rules : List NeutronRule) (revs : List (String × String))
      (adds : List FwrDict) (nv : String × String),
    nv ∈ (ruleLoop md ipset_id nsg_id revs_ips rules revs adds).2 →
      nv ∈ revs := by
  intro rules
  induction rules with
  | nil =>
    intro revs adds nv h
    simpa [ruleLoop] using h
  | cons r rest ih =>
    intro revs adds nv h
    simp only [ruleLoop, get_security_group_rule_spec] at h
    by_cases h1 : (lookupStr revs r.id).isSome = true
    · rw [if_pos h1] at h
      by_cases h2 : md r.id = false
      · rw [if_pos h2] at h
        exact (mem_eraseKey.mp (ih _ _ _ h)).1
      · rw [if_neg h2] at h
        exact ih _ _ _ h
    · rw [if_neg h1] at h
      exact ih _ _ _ h

theorem ruleLoop_adds_monotone :
    ∀ (rules : List NeutronRule) (revs : List (String × String))
      (adds : List FwrDict) (s : FwrDict),
    s ∈ adds → s ∈ (ruleLoop md ipset_id nsg_id revs_ips rules revs adds).1 := by
  intro rules
  induction rules with
  | nil =>
    intro revs adds s hs
    simpa [ruleLoop] using hs
  | cons r rest ih =>
    intro revs adds s hs
    simp only [ruleLoop, get_security_group_rule_spec]
    by_cases h1 : (lookupStr revs r.id).isSome = true
    · rw [if_pos h1]
      by_cases h2 : md r.id = false
      · rw [if_pos h2]
        exact ih _ _ _ hs
      · rw [if_neg h2]
        exact ih _ _ _ (List.mem_append_left _ hs)
    · rw [if_neg h1]
      exact ih _ _ _ (List.mem_append_left _ hs)

theorem ruleLoop_adds_from :
    ∀ (rules : List NeutronRule) (revs : List (String × String))
      (adds : List FwrDict) (s : FwrDict),
    s ∈ (ruleLoop md ipset_id nsg_id revs_ips rules revs adds).1 →
      s ∈ adds ∨ ∃ r ∈ rules, s = buildFwr ipset_id nsg_id revs_ips r := by
  intro rules
  induction rules with
  | nil =>
    intro revs adds s hs
    exact Or.inl (by simpa [ruleLoop] using hs)
  | cons r rest ih =>
    intro revs adds s hs
    simp only [ruleLoop, get_security_group_rule_spec] at hs
    have hstep : s ∈ adds ∨ s = buildFwr ipset_id nsg_id revs_ips r ∨
        ∃ r2 ∈ rest, s = buildFwr ipset_id nsg_id revs_ips r2 := by
      by_cases h1 : (lookupStr revs r.id).isSome = true
      · rw [if_pos h1] at hs
        by_cases h2 : md r.id = false
        · rw [if_pos h2] at hs
          rcases ih _ _ _ hs with h | h
          · exact Or.inl h
          · exact Or.inr (Or.inr h)
        · rw [if_neg h2] at hs
          rcases ih _ _ _ hs with h | h
          · rcases List.mem_append.mp h with h3 | h3
            · exact Or.inl h3
            · exact Or.inr (Or.inl (List.mem_singleton.mp h3))
          · exact Or.inr (Or.inr h)
      · rw [if_neg h1] at hs
        rcases ih _ _ _ hs with h | h
        · rcases List.mem_append.mp h with h3 | h3
          · exact Or.inl h3
          · exact Or.inr (Or.inl (List.mem_singleton.mp h3))
        · exact Or.inr (Or.inr h)
    rcases hstep with h | h | ⟨r2, hr2, he⟩
    · exact Or.inl h
    · exact Or.inr ⟨r, List.mem_cons_self r rest, h⟩
    · exact Or.inr ⟨r2, List.mem_cons_of_mem r hr2, he⟩

theorem ruleLoop_enabled_erased :
    ∀ (rules : List NeutronRule) (revs : List (String × String))
      (adds : List FwrDict) (name ref : String) (rule : NeutronRule),
    (name, ref) ∈ revs → rule ∈ rules → rule.id = name → md name = false →
    ∀ nv ∈ (ruleLoop md ipset_id nsg_id revs_ips rules revs adds).2,
      nv.1 ≠ name := by
  intro rules
  induction rules with
  | nil =>
    intro revs adds name ref rule hmem hrule
    exact absurd hrule (List.not_mem_nil rule)
  | cons r rest ih =>
    intro revs adds name ref rule hmem hrule hid hmd nv hnv
    simp only [ruleLoop, get_security_group_rule_spec] at hnv
    by_cases hr : r.id = name
    · have h1 : (lookupStr revs r.id).isSome = true := by
        rw [hr]
        exact lookupStr_isSome_of_mem hmem
      have h2 : md r.id = false := by
        rw [hr]
        exact hmd
      rw [if_pos h1, if_pos h2] at hnv
      have hsub := mem_eraseKey.mp
        (ruleLoop_revs_subset md ipset_id nsg_id revs_ips _ _ _ _ hnv)
      rw [hr] at hsub
      exact hsub.2
    · have hrest : rule ∈ rest := by
        rcases List.mem_cons.mp hrule with h | h
        · exact absurd (h ▸ hid) hr
        · exact h
      by_cases h1 : (lookupStr revs r.id).isSome = true
      · rw [if_pos h1] at hnv
        by_cases h2 : md r.id = false
        · rw [if_pos h2] at hnv
          have hmem2 : (name, ref) ∈ eraseKey revs r.id :=
            mem_eraseKey.mpr ⟨hmem, fun e => hr e.symm⟩
          exact ih _ _ name ref rule hmem2 hrest hid hmd nv hnv
        · rw [if_neg h2] at hnv
          exact ih _ _ name ref rule hmem hrest hid hmd nv hnv
      · rw [if_neg h1] at hnv
        exact ih _ _ name ref rule hmem hrest hid hmd nv hnv

theorem ruleLoop_enabled_no_add :
    ∀ (rules : List NeutronRule) (revs : List (String × String))
      (adds : List FwrDict) (name ref : String),
    (rules.map NeutronRule.id).Nodup → (name, ref) ∈ revs →
    md name = false → (∃ rule ∈ rules, rule.id = name) →
    (∀ s ∈ adds, s.id ≠ name) →
    ∀ s ∈ (ruleLoop md ipset_id nsg_id revs_ips rules revs adds).1,
      s.id ≠ name := by
  intro rules
  induction rules with
  | nil =>
    rintro revs adds name ref _ _ _ ⟨rule, hrule, _⟩
    exact absurd hrule (List.not_mem_nil rule)
  | cons r rest ih =>
    rintro revs adds name ref hnd hmem hmd ⟨rule, hrule, hid⟩ hadds s hs
    simp only [List.map_cons, List.nodup_cons] at hnd
    simp only [ruleLoop, get_security_group_rule_spec] at hs
    by_cases hr : r.id = name
    · have h1 : (lookupStr revs r.id).isSome = true := by
        rw [hr]
        exact lookupStr_isSome_of_mem hmem
      have h2 : md r.id = false := by
        rw [hr]
        exact hmd
      rw [if_pos h1, if_pos h2] at hs
      rcases ruleLoop_adds_from md ipset_id nsg_id revs_ips _ _ _ _ hs with
        h | ⟨r2, hr2, he⟩
      · exact hadds s h
      · intro he2
        apply hnd.1
        rw [hr, ← he2, he, buildFwr_id]
        exact List.mem_map.mpr ⟨r2, hr2, rfl⟩
    · have hrest : rule ∈ rest := by
        rcases List.mem_cons.mp hrule with h | h
        · exact absurd (h ▸ hid) hr
        · exact h
      by_cases h1 : (lookupStr revs r.id).isSome = true
      · rw [if_pos h1] at hs
        by_cases h2 : md r.id = false
        · rw [if_pos h2] at hs
          have hmem2 : (name, ref) ∈ eraseKey revs r.id :=
            mem_eraseKey.mpr ⟨hmem, fun e => hr e.symm⟩
          exact ih _ _ name ref hnd.2 hmem2 hmd ⟨rule, hrest, hid⟩ hadds s hs
        · rw [if_neg h2] at hs
          refine ih _ _ name ref hnd.2 hmem hmd ⟨rule, hrest, hid⟩ ?_ s hs
          intro s2 hs2
          rcases List.mem_append.mp hs2 with h3 | h3
          · exact hadds s2 h3
          · rw [List.mem_singleton.mp h3, buildFwr_id]
            exact hr
      · rw [if_neg h1] at hs
        refine ih _ _ name ref hnd.2 hmem hmd ⟨rule, hrest, hid⟩ ?_ s hs
        intro s2 hs2
        rcases List.mem_append.mp hs2 with h3 | h3
        · exact hadds s2 h3
        · rw [List.mem_singleton.mp h3, buildFwr_id]
          exact hr

theorem ruleLoop_disabled_kept :
    ∀ (rules : List NeutronRule) (revs : List (String × String))
      (adds : List FwrDict) (name ref : String),
    md name = true → (name, ref) ∈ revs →
    (name, ref) ∈ (ruleLoop md ipset_id nsg_id revs_ips rules revs adds).2 := by
  intro rules
  induction rules with
  | nil =>
    intro revs adds name ref _ hmem
    simpa [ruleLoop] using hmem
  | cons r rest ih =>
    intro revs adds name ref hmd hmem
    simp only [ruleLoop, get_security_group_rule_spec]
    by_cases h1 : (lookupStr revs r.id).isSome = true
    · rw [if_pos h1]
      by_cases h2 : md r.id = false
      · rw [if_pos h2]
        have hne : ¬(name, ref).1 = r.id := by
          intro e
          rw [show name = r.id from e] at hmd
          rw [hmd] at h2
          exact Bool.noConfusion h2
        exact ih _ _ name ref hmd (mem_eraseKey.mpr ⟨hmem, hne⟩)
      · rw [if_neg h2]
        exact ih _ _ name ref hmd hmem
    · rw [if_neg h1]
      exact ih _ _ name ref hmd hmem

theorem ruleLoop_disabled_added :
    ∀ (rules : List NeutronRule) (revs : List (String × String))
      (adds : List FwrDict) (name ref : String) (rule : NeutronRule),
    md name = true → (name, ref) ∈ revs → rule ∈ rules → rule.id = name →
    buildFwr ipset_id nsg_id revs_ips rule ∈
      (ruleLoop md ipset_id nsg_id revs_ips rules revs adds).1 := by
  intro rules
  induction rules with
  | nil =>
    intro revs adds name ref rule _ _ hrule
    exact absurd hrule (List.not_mem_nil rule)
  | cons r rest ih =>
    intro revs adds name ref rule hmd hmem hrule hid
    simp only [ruleLoop, get_security_group_rule_spec]
    rcases List.mem_cons.mp hrule with heq | hrest
    · subst heq
      have h1 : (lookupStr revs rule.id).isSome = true := by
        rw [hid]
        exact lookupStr_isSome_of_mem hmem
      have h2 : ¬md rule.id = false := by
        rw [hid, hmd]
        exact fun e => Bool.noConfusion e
      rw [if_pos h1, if_neg h2]
      exact ruleLoop_adds_monotone md ipset_id nsg_id revs_ips _ _ _ _
        (List.mem_append_right _ (List.mem_singleton.mpr rfl))
    · by_cases h1 : (lookupStr revs r.id).isSome = true
      · rw [if_pos h1]
        by_cases h2 : md r.id = false
        · rw [if_pos h2]
          have hne : ¬(name, ref).1 = r.id := by
            intro e
            rw [show name = r.id from e] at hmd
            rw [hmd] at h2
            exact Bool.noConfusion h2
          exact ih _ _ name ref rule hmd (mem_eraseKey.mpr ⟨hmem, hne⟩) hrest
            hid
        · rw [if_neg h2]
          exact ih _ _ name ref rule hmd hmem hrest hid
      · rw [if_neg h1]
        exact ih _ _ name ref rule hmd hmem hrest hid

end RuleLoopLemmas

/-- Claim C2: for an existing target rule whose id also appears in the
authoritative rule list, the reconciler leaves it untouched when it is not
disabled (its id is in neither the add list nor the remaining delete set), and
deletes-and-recreates it when it is disabled (its reference stays in the
delete list and a freshly built spec with the same id is added). -/
theorem security_group_rule_reconciliation (md : String → Bool)
    (ipset_id nsg_id : String) (revs_ips revs_fwr : List (String × String))
    (neutron_rules : List NeutronRule) (name ref : String)
    (rule : NeutronRule)
    (hnd : (neutron_rules.map NeutronRule.id).Nodup)
    (hmem : (name, ref) ∈ revs_fwr)
    (hrule : rule ∈ neutron_rules) (hid : rule.id = name) :
    (md name = false →
      (∀ s ∈ (security_group_rule_updated md ipset_id nsg_id revs_ips revs_fwr
        neutron_rules).1, s.id ≠ name) ∧
      (∀ nv ∈ (ruleLoop md ipset_id nsg_id revs_ips neutron_rules revs_fwr
        []).2, nv.1 ≠ name)) ∧
    (md name = true →
      buildFwr ipset_id nsg_id revs_ips rule ∈
        (security_group_rule_updated md ipset_id nsg_id revs_ips revs_fwr
          neutron_rules).1 ∧
      (buildFwr ipset_id nsg_id revs_ips rule).id = name ∧
      ref ∈ (security_group_rule_updated md ipset_id nsg_id revs_ips revs_fwr
        neutron_rules).2) := by
  constructor
  · intro hmd
    constructor
    · intro s hs
      exact ruleLoop_enabled_no_add md ipset_id nsg_id revs_ips neutron_rules
        revs_fwr [] name ref hnd hmem hmd ⟨rule, hrule, hid⟩
        (fun s2 h => absurd h (List.not_mem_nil s2)) s hs
    · intro nv hnv
      exact ruleLoop_enabled_erased md ipset_id nsg_id revs_ips neutron_rules
        revs_fwr [] name ref rule hmem hrule hid hmd nv hnv
  · intro hmd
    refine ⟨?_, by rw [buildFwr_id]; exact hid, ?_⟩
    · exact ruleLoop_disabled_added md ipset_id nsg_id revs_ips neutron_rules
        revs_fwr [] name ref rule hmd hmem hrule hid
    · exact List.mem_map.mpr ⟨(name, ref),
        ruleLoop_disabled_kept md ipset_id nsg_id revs_ips neutron_rules
          revs_fwr [] name ref hmd hmem, rfl⟩

/-- A concrete authoritative rule used by the reconciliation witnesses. -/
def ruleA : NeutronRule :=
  ⟨"r1", "1", "65535", "tcp", "IPv4", "ingress", "rg", "10.0.0.0/8", "sg1"⟩

/-- Witness for C2, disabled case: rule `r1` exists in the target and is
disabled, so its reference stays in the delete list and a fresh spec named
`r1` is added. -/
theorem security_group_rule_reconciliation_witness :
    buildFwr "ips" "nsg" [] ruleA ∈
      (security_group_rule_updated (fun _ => true) "ips" "nsg" []
        [("r1", "fwr-ref")] [ruleA]).1 ∧
    (buildFwr "ips" "nsg" [] ruleA).id = "r1" ∧
    "fwr-ref" ∈ (security_group_rule_updated (fun _ => true) "ips" "nsg" []
      [("r1", "fwr-ref")] [ruleA]).2 :=
  (security_group_rule_reconciliation (fun _ => true) "ips" "nsg" []
    [("r1", "fwr-ref")] [ruleA] "r1" "fwr-ref" ruleA (by decide) (by decide)
    (by decide) rfl).2 rfl

/-- Claim C5: when the rule's `remote_group_id` is a key of the IPSet revision
map, the resolved reference is substituted verbatim into the emitted spec;
otherwise the original source-domain id passes through unchanged.  The third
conjunct records that the spec function (modelled from the spec) emits the
built dict itself. -/
theorem remote_group_reference_substitution (ipset_id nsg_id : String)
    (revs_ips : List (String × String)) (rule : NeutronRule) :
    (∀ ref, lookupStr revs_ips rule.remote_group_id = some ref →
      (buildFwr ipset_id nsg_id revs_ips rule).remote_group_id = ref) ∧
    (lookupStr revs_ips rule.remote_group_id = none →
      (buildFwr ipset_id nsg_id revs_ips rule).remote_group_id =
        rule.remote_group_id) ∧
    get_security_group_rule_spec (buildFwr ipset_id nsg_id revs_ips rule) =
      some (buildFwr ipset_id nsg_id revs_ips rule) := by
  refine ⟨fun ref h => ?_, fun h => ?_, rfl⟩
  · simp [buildFwr, h]
  · simp [buildFwr, h]

/-- Witness for C5: with the IPSet map resolving `rg` the reference is
substituted; with an empty map the original id passes through. -/
theorem remote_group_reference_substitution_witness :
    (buildFwr "ips" "nsg" [("rg", "ipset-rg")] ruleA).remote_group_id =
      "ipset-rg" ∧
    (buildFwr "ips" "nsg" [] ruleA).remote_group_id = "rg" :=
  ⟨(remote_group_reference_substitution "ips" "nsg" [("rg", "ipset-rg")]
      ruleA).1 "ipset-rg" (by decide),
    (remote_group_reference_substitution "ips" "nsg" [] ruleA).2.1 rfl⟩

/-- The primitive calls a handler performs, as an observable trace: named-lock
acquisitions, the NSX facade calls that mutate the target store, and updates
of the agent-local `updated_devices` set. -/
inductive Effect
  | lock (key : String)
  | nsx_port_update (id : String) (revision : Nat)
      (security_groups : List String)
      (address_bindings : List (String × String)) (qos_name : Option String)
  | nsx_port_delete (id : String)
  | add_updated_device (mac : String)
deriving DecidableEq

/-- Effects that operate on the target store; lock handling and the
agent-local device set are not target-store operations. -/
def isTargetStoreOp : Effect → Bool
  | .nsx_port_update _ _ _ _ _ => true
  | .nsx_port_delete _ => true
  | _ => false

/-- The policy dict handed to the QoS policy handlers (only the fields
`delete_policy` touches). -/
structure Policy where
  id : String
  name : String
deriving DecidableEq

/-- Embedding of `delete_policy` (nsxv3_agent.py lines 450-454): it acquires
the per-policy lock and then does nothing — the body is `pass`, with the
facade delete call commented out as a TODO. -/
def delete_policy (policy : Policy) : List Effect :=
  [Effect.lock policy.id]

/-- Embedding of `sync_qos_orphaned` (nsxv3_agent.py lines 340-346): build the
`ORPHANED-`-named policy dict and call `delete_policy`. -/
def sync_qos_orphaned (qos_id : String) : List Effect :=
  delete_policy ⟨qos_id, "ORPHANED-" ++ qos_id⟩

/-- Claim C9: `delete_policy` only acquires the per-policy lock and performs
no target-store operation, so `sync_qos_orphaned` leaves the target store
unchanged — orphaned QoS switching profiles are never actually removed. -/
theorem delete_policy_noop (policy : Policy) (qos_id : String) :
    delete_policy policy = [Effect.lock policy.id] ∧
    (delete_policy policy).filter isTargetStoreOp = [] ∧
    sync_qos_orphaned qos_id = [Effect.lock qos_id] ∧
    (sync_qos_orphaned qos_id).filter isTargetStoreOp = [] :=
  ⟨rfl, rfl, rfl, rfl⟩

/-- Modelled from the spec: the neutron-lib `portbindings.VNIC_NORMAL`
constant (the library is not part of this snapshot). -/
def VNIC_NORMAL : String := "normal"

/-- Modelled from the spec: the neutron-lib `portbindings.VIF_TYPE_OVS`
constant (the library is not part of this snapshot). -/
def VIF_TYPE_OVS : String := "ovs"

/-- One entry of a port's `fixed_ips` list. -/
structure FixedIp where
  ip_address : String
  mac_address : Option String
  subnet_id : String
deriving DecidableEq

/-- One entry of a port's `allowed_address_pairs` list. -/
structure AddressPair where
  ip_address : String
  mac_address : String
deriving DecidableEq

/-- The port dict handed to `port_update`, restricted to the fields it reads.
`binding_host_id` is the optional `binding:host_id` key; `vnic_type` and
`vif_type` are optional since the RPC payload may omit them. -/
structure Port where
  id : String
  mac_address : String
  revision_number : Nat
  qos_policy_id : Option String
  fixed_ips : List FixedIp
  allowed_address_pairs : List AddressPair
  security_groups : List String
  binding_host_id : Option String
  vnic_type : Option String
  vif_type : Option String
deriving DecidableEq

/-- Embedding of the `address_bindings` accumulation of `port_update`
(nsxv3_agent.py lines 411-418): fixed ips first (falling back to the port MAC
when the entry's MAC is missing or empty), then the allowed address pairs. -/
def addressBindings (port : Port) : List (String × String) :=
  (port.fixed_ips.map (fun addr =>
    (addr.ip_address,
      match addr.mac_address with
      | some m => if m = "" then port.mac_address else m
      | none => port.mac_address))) ++
  port.allowed_address_pairs.map (fun addr => (addr.ip_address, addr.mac_address))

/-- Embedding of `port_update` (nsxv3_agent.py lines 394-428) as its effect
trace.  The two guards return early with no effects: the port must have
`vnic_type == VNIC_NORMAL` and `vif_type == VIF_TYPE_OVS` (a missing or empty
value fails the Python truthiness check), and a present `binding:host_id`
must equal the agent's configured host.  Otherwise the handler locks the port
id, updates the port through the facade, and records the MAC in
`updated_devices`. -/
def port_update (host : String) (port : Port) : List Effect :=
  if ¬(port.vnic_type = some VNIC_NORMAL ∧ port.vif_type = some VIF_TYPE_OVS)
  then []
  else
    match port.binding_host_id with
    | some b =>
      if ¬host = b then []
      else
        [Effect.lock port.id,
         Effect.nsx_port_update port.id port.revision_number
           port.security_groups (addressBindings port) port.qos_policy_id,
         Effect.add_updated_device port.mac_address]
    | none =>
      [Effect.lock port.id,
       Effect.nsx_port_update port.id port.revision_number
         port.security_groups (addressBindings port) port.qos_policy_id,
       Effect.add_updated_device port.mac_address]

/-- Claim C10: `port_update` performs no effect at all — no target-store
mutation, no per-port lock, no `updated_devices` change — whenever the vnic
type is not `VNIC_NORMAL`, or the vif type is not `VIF_TYPE_OVS`, or a
`binding:host_id` is present and differs from the agent's host. -/
theorem port_update_skips (host : String) (port : Port)
    (h : port.vnic_type ≠ some VNIC_NORMAL ∨
      port.vif_type ≠ some VIF_TYPE_OVS ∨
      ∃ b, port.binding_host_id = some b ∧ b ≠ host) :
    port_update host port = [] := by
  rcases h with h | h | ⟨b, hb, hne⟩
  · rw [port_update, if_pos (fun hc => h hc.1)]
  · rw [port_update, if_pos (fun hc => h hc.2)]
  · by_cases hg : port.vnic_type = some VNIC_NORMAL ∧
        port.vif_type = some VIF_TYPE_OVS
    · rw [port_update, if_neg (not_not_intro hg), hb]
      exact if_pos (fun e => hne e.symm)
    · rw [port_update, if_pos hg]

/-- A concrete port for the C10 witness: a direct-passthrough vnic bound to a
different host. -/
def portX : Port :=
  { id := "p1"
    mac_address := "fa:16:3e:00:00:01"
    revision_number := 3
    qos_policy_id := none
    fixed_ips := []
    allowed_address_pairs := []
    security_groups := []
    binding_host_id := some "other-host"
    vnic_type := some "direct"
    vif_type := some "ovs" }

/-- Witness for C10: the direct-vnic port produces an empty effect trace. -/
theorem port_update_skips_witness : port_update "h1" portX = [] :=
  port_update_skips "h1" portX (Or.inl (by decide))

/-- Embedding of `get_all_devices` (nsxv3_agent.py lines 474-498).  The whole
sync attempt sits in a `try` whose `except` logs the traceback; both paths
fall through to `return set()`.  `syncResult` is the outcome of the
`rpc.sync_inventory()` call; the `Int` in the result is the new
`last_sync_time`, updated only when the sync ran and did not raise. -/
def get_all_devices (hasRpc : Bool) (now lastSyncTime pollingInterval : Int)
    (syncResult : Except String Unit) :
    Except String (Finset String × Int) :=
  if hasRpc then
    let attempt : Except String Int :=
      if pollingInterval < now - lastSyncTime then
        match syncResult with
        | Except.ok _ => Except.ok now
        | Except.error e => Except.error e
      else Except.ok lastSyncTime
    match attempt with
    | Except.ok t => Except.ok (∅, t)
    | Except.error _ => Except.ok (∅, lastSyncTime)
  else Except.ok (∅, lastSyncTime)

/-- Claim C8: `get_all_devices` never propagates an exception and always
returns the empty set; in particular every error raised by the sync attempt
is swallowed (and `last_sync_time` is then left unchanged). -/
theorem get_all_devices_total (hasRpc : Bool)
    (now lastSyncTime pollingInterval : Int)
    (syncResult : Except String Unit) :
    (∃ t, get_all_devices hasRpc now lastSyncTime pollingInterval syncResult =
      Except.ok (∅, t)) ∧
    (∀ e, syncResult = Except.error e →
      get_all_devices hasRpc now lastSyncTime pollingInterval syncResult =
        Except.ok (∅, lastSyncTime)) := by
  cases hasRpc with
  | false => exact ⟨⟨lastSyncTime, rfl⟩, fun e he => rfl⟩
  | true =>
    by_cases hp : pollingInterval < now - lastSyncTime
    · cases syncResult with
      | ok u =>
        refine ⟨⟨now, by simp [get_all_devices, hp]⟩, fun e he => ?_⟩
        exact Except.noConfusion he
      | error e0 =>
        exact ⟨⟨lastSyncTime, by simp [get_all_devices, hp]⟩,
          fun e he => by simp [get_all_devices, hp]⟩
    · cases syncResult with
      | ok u =>
        refine ⟨⟨lastSyncTime, by simp [get_all_devices, hp]⟩, fun e he => ?_⟩
        exact Except.noConfusion he
      | error e0 =>
        exact ⟨⟨lastSyncTime, by simp [get_all_devices, hp]⟩,
          fun e he => by simp [get_all_devices, hp]⟩

/-- Witness for C8: a failing sync attempt is swallowed, the empty set is
returned and `last_sync_time` keeps its old value. -/
theorem get_all_devices_total_witness :
    get_all_devices true 100 0 30 (Except.error "boom") =
      Except.ok ((∅ : Finset String), 0) :=
  (get_all_devices_total true 100 0 30 (Except.error "boom")).2 "boom" rfl

end Nsxv3Agent
